import Mathlib

/-!
Shallow embedding of the chunking / indexing / retrieval core of the
`f5guardrails` repository (files `build_index.py`, `geminitestv1.py`,
`geminitestv2.py`).  Text is modelled as `List Char`, bytes as `List Nat`,
machine loops as fuel-indexed functions returning `Option` (where `none`
models fuel exhaustion, i.e. non-termination of the source loop).
-/

/-! ## Python string primitives -/

/-- Python whitespace characters, as used by `str.strip()` (ASCII subset). -/
def pySpace (c : Char) : Bool :=
  c = ' ' || c = '\t' || c = '\n' || c = '\r' || c = '\x0b' || c = '\x0c'

/-- Model of Python `str.strip()`: drop leading and trailing whitespace. -/
def pyStrip (l : List Char) : List Char :=
  ((l.dropWhile pySpace).reverse.dropWhile pySpace).reverse

/-- Model of Python slicing `text[s:e]` for `0 ≤ s ≤ e` (clipping included). -/
def pySlice (text : List Char) (s e : Nat) : List Char :=
  (text.drop s).take (e - s)

/-- The decimal digit character for `d` (`digitCh 3 = '3'`). -/
def digitCh (d : Nat) : Char := Char.ofNat (48 + d)

/-- Model of Python `str(i)` / `f-string` formatting of a natural number:
its decimal representation without leading zeros. -/
def pyStr (n : Nat) : List Char :=
  if h : n < 10 then [digitCh n]
  else pyStr (n / 10) ++ [digitCh (n % 10)]
decreasing_by exact Nat.div_lt_self (by omega) (by omega)

/-- Model of Python `str.lower()` (ASCII part, which is all the source needs
for extension matching). -/
def pyLower (c : Char) : Char :=
  if 'A' ≤ c && c ≤ 'Z' then Char.ofNat (c.toNat + 32) else c

theorem pyStrip_length_le (l : List Char) : (pyStrip l).length ≤ l.length := by
  unfold pyStrip
  have h1 : (List.dropWhile pySpace l).length ≤ l.length :=
    (List.dropWhile_sublist pySpace).length_le
  have h2 : (List.dropWhile pySpace (List.dropWhile pySpace l).reverse).length ≤
      (List.dropWhile pySpace l).reverse.length :=
    (List.dropWhile_sublist pySpace).length_le
  simp only [List.length_reverse] at *
  omega

theorem pyStr_ne_nil (n : Nat) : pyStr n ≠ [] := by
  unfold pyStr
  split <;> simp

theorem digitCh_isDigit {d : Nat} (h : d < 10) : (digitCh d).isDigit = true := by
  interval_cases d <;> decide

theorem pyStr_digits (n : Nat) : ∀ c ∈ pyStr n, c.isDigit = true := by
  induction n using pyStr.induct with
  | case1 n h =>
    intro c hc
    rw [pyStr] at hc
    simp [h] at hc
    subst hc
    exact digitCh_isDigit h
  | case2 n h ih =>
    intro c hc
    rw [pyStr] at hc
    simp [h] at hc
    rcases hc with hc | hc
    · exact ih c hc
    · subst hc
      exact digitCh_isDigit (Nat.mod_lt _ (by omega))

/-- Decimal value of a digit string (used only to invert `pyStr`). -/
def strVal (l : List Char) : Nat :=
  l.foldl (fun a c => 10 * a + (c.toNat - 48)) 0

theorem foldl_strVal (l : List Char) :
    ∀ a, l.foldl (fun a c => 10 * a + (c.toNat - 48)) a =
      a * 10 ^ l.length + strVal l := by
  induction l with
  | nil => intro a; simp [strVal]
  | cons c t ih =>
    intro a
    simp only [List.foldl_cons, strVal, List.length_cons]
    rw [ih, ih (10 * 0 + (c.toNat - 48))]
    ring

theorem digitCh_toNat {d : Nat} (h : d < 10) : (digitCh d).toNat = 48 + d := by
  interval_cases d <;> decide

theorem strVal_pyStr (n : Nat) : strVal (pyStr n) = n := by
  induction n using pyStr.induct with
  | case1 n h =>
    rw [pyStr]
    simp only [h, dite_true]
    simp [strVal, digitCh_toNat h]
  | case2 n h ih =>
    rw [pyStr]
    simp only [h, dite_false]
    unfold strVal
    rw [List.foldl_append]
    have hd : (digitCh (n % 10)).toNat = 48 + n % 10 :=
      digitCh_toNat (Nat.mod_lt _ (by omega))
    simp only [List.foldl_cons, List.foldl_nil]
    have : List.foldl (fun a c => 10 * a + (c.toNat - 48)) 0 (pyStr (n / 10)) = n / 10 := ih
    rw [this, hd]
    omega

theorem pyStr_inj {a b : Nat} (h : pyStr a = pyStr b) : a = b := by
  have := congrArg strVal h
  rwa [strVal_pyStr, strVal_pyStr] at this

/-! ## UTF-8 decoding with the `ignore` error handler

`load_docs` opens files with `encoding="utf-8", errors="ignore"`: invalid
byte sequences are dropped from the decoded text (CPython skips the maximal
valid subpart of an ill-formed sequence, then resumes). -/

/-- Is `b` a UTF-8 continuation byte (`0x80..0xBF`)? -/
def isCont (b : Nat) : Bool := 128 ≤ b && b < 192

/-- Lower bound for the second byte of a multi-byte sequence with lead `b`. -/
def cont2lo (b : Nat) : Nat :=
  if b = 0xE0 then 0xA0 else if b = 0xF0 then 0x90 else 0x80

/-- Upper bound for the second byte of a multi-byte sequence with lead `b`. -/
def cont2hi (b : Nat) : Nat :=
  if b = 0xED then 0x9F else if b = 0xF4 then 0x8F else 0xBF

/-- UTF-8 decoding with `errors="ignore"`: well-formed sequences decode to
their scalar value, ill-formed ones are skipped (maximal valid subpart),
and decoding never fails. -/
def utf8DecodeIgnore : List Nat → List Char
  | [] => []
  | b :: bs =>
    if b < 128 then Char.ofNat b :: utf8DecodeIgnore bs
    else if 0xC2 ≤ b && b ≤ 0xDF then
      match bs with
      | [] => []
      | c :: cs =>
        if isCont c then
          Char.ofNat ((b - 0xC0) * 64 + (c - 0x80)) :: utf8DecodeIgnore cs
        else utf8DecodeIgnore (c :: cs)
    else if 0xE0 ≤ b && b ≤ 0xEF then
      match bs with
      | [] => []
      | c :: cs =>
        if cont2lo b ≤ c && c ≤ cont2hi b then
          match cs with
          | [] => []
          | d :: ds =>
            if isCont d then
              Char.ofNat ((b - 0xE0) * 4096 + (c - 0x80) * 64 + (d - 0x80)) ::
                utf8DecodeIgnore ds
            else utf8DecodeIgnore (d :: ds)
        else utf8DecodeIgnore (c :: cs)
    else if 0xF0 ≤ b && b ≤ 0xF4 then
      match bs with
      | [] => []
      | c :: cs =>
        if cont2lo b ≤ c && c ≤ cont2hi b then
          match cs with
          | [] => []
          | d :: ds =>
            if isCont d then
              match ds with
              | [] => []
              | e :: es =>
                if isCont e then
                  Char.ofNat ((b - 0xF0) * 262144 + (c - 0x80) * 4096 +
                    (d - 0x80) * 64 + (e - 0x80)) :: utf8DecodeIgnore es
                else utf8DecodeIgnore (e :: es)
            else utf8DecodeIgnore (d :: ds)
        else utf8DecodeIgnore (c :: cs)
    else utf8DecodeIgnore bs

theorem utf8DecodeIgnore_ascii (l : List Nat) (h : ∀ b ∈ l, b < 128) :
    utf8DecodeIgnore l = l.map Char.ofNat := by
  induction l with
  | nil => simp [utf8DecodeIgnore]
  | cons b bs ih =>
    have hb : b < 128 := h b (by simp)
    rw [utf8DecodeIgnore.eq_def]
    simp only [hb, if_true, List.map_cons]
    rw [ih (fun x hx => h x (by simp [hx]))]

theorem utf8DecodeIgnore_ascii_bad_ascii (as bs : List Nat)
    (ha : ∀ b ∈ as, b < 128) (hb : ∀ b ∈ bs, b < 128) :
    utf8DecodeIgnore (as ++ 255 :: bs) = as.map Char.ofNat ++ bs.map Char.ofNat := by
  induction as with
  | nil =>
    rw [utf8DecodeIgnore.eq_def]
    norm_num [isCont, cont2lo, cont2hi]
    exact utf8DecodeIgnore_ascii bs hb
  | cons a t ih =>
    have ha' : a < 128 := ha a (by simp)
    rw [List.cons_append, utf8DecodeIgnore.eq_def]
    simp only [ha', if_true, List.map_cons, List.cons_append]
    rw [ih (fun x hx => ha x (by simp [hx]))]

/-! ## Chunker (`build_index.py`, `chunk_text`)

The source is a `while start < n` loop.  We embed it as a fuel-indexed
function: `none` models fuel exhaustion (the loop not terminating within
the given number of iterations); `chunk_text` supplies fuel `n + 1`,
which the termination theorem below shows is always sufficient when
`O < S`. -/

/-- Configured maximum chunk size (`CHUNK_SIZE = 800` in `build_index.py`). -/
def CHUNK_SIZE : Nat := 800

/-- Configured overlap (`CHUNK_OVERLAP = 150` in `build_index.py`). -/
def CHUNK_OVERLAP : Nat := 150

/-- One-to-one embedding of the `while` loop body of `chunk_text`:
`end = min(start + S, n)`, `chunk = text[start:end].strip()`, append the
chunk if non-empty, `start = max(end - O, 0)` (the clamp is Nat
subtraction), `break` when `end == n`. -/
def chunkLoopF (S O n : Nat) (text : List Char) : Nat → Nat → Option (List (List Char))
  | _, 0 => none
  | start, fuel + 1 =>
    if start < n then
      let e := min (start + S) n
      let c := pyStrip (pySlice text start e)
      if e = n then some (if c = [] then [] else [c])
      else
        match chunkLoopF S O n text (e - O) fuel with
        | none => none
        | some rest => some (if c = [] then rest else c :: rest)
    else some []

/-- `chunk_text(text)` from `build_index.py`, parameterized by `S` and `O`. -/
def chunk_text (S O : Nat) (text : List Char) : Option (List (List Char)) :=
  chunkLoopF S O text.length text 0 (text.length + 1)

/-- The same loop, instrumented to record the pre-trim windows
`(start, end)` instead of the trimmed chunks. -/
def windowsF (S O n : Nat) : Nat → Nat → Option (List (Nat × Nat))
  | _, 0 => none
  | start, fuel + 1 =>
    if start < n then
      let e := min (start + S) n
      if e = n then some [(start, e)]
      else
        match windowsF S O n (e - O) fuel with
        | none => none
        | some rest => some ((start, e) :: rest)
    else some []

/-- The pre-trim window sequence of the chunker on `text`. -/
def windows (S O : Nat) (text : List Char) : Option (List (Nat × Nat)) :=
  windowsF S O text.length 0 (text.length + 1)

/-- The chunk list is exactly the window list with each window sliced out,
stripped, and empty results dropped. -/
theorem chunkLoopF_eq_windowsF (S O n : Nat) (text : List Char) :
    ∀ fuel start,
      chunkLoopF S O n text start fuel =
        Option.map (fun ws => (ws.map fun p => pyStrip (pySlice text p.1 p.2)).filter
          (fun c => !c.isEmpty)) (windowsF S O n start fuel) := by
  intro fuel
  induction fuel with
  | zero => intro start; rfl
  | succ f ih =>
    intro start
    rw [chunkLoopF, windowsF]
    by_cases hs : start < n
    · simp only [hs, if_true]
      by_cases he : min (start + S) n = n
      · simp only [he, if_true, Option.map_some]
        by_cases hc : pyStrip (pySlice text start n) = []
        · simp [hc, List.isEmpty_iff]
        · simp [hc, List.filter_cons, List.isEmpty_iff]
      · simp only [he, if_false]
        rw [ih]
        cases hw : windowsF S O n (min (start + S) n - O) f with
        | none => simp
        | some rest =>
          simp only [Option.map_some, List.map_cons, List.filter_cons]
          by_cases hc : pyStrip (pySlice text start (min (start + S) n)) = []
          · simp [hc, List.isEmpty_iff]
          · simp [hc, List.isEmpty_iff]
    · simp [hs]

theorem chunk_text_eq_windows (S O : Nat) (text : List Char) :
    chunk_text S O text =
      Option.map (fun ws => (ws.map fun p => pyStrip (pySlice text p.1 p.2)).filter
        (fun c => !c.isEmpty)) (windows S O text) :=
  chunkLoopF_eq_windowsF S O text.length text (text.length + 1) 0

/-- Main loop invariant of the chunker's window sequence: with `O < S` and
enough fuel the loop terminates; the windows start at `start`, satisfy
`end = min(start + S, n)`, the last window ends at `n`, consecutive
windows overlap by exactly `O`, and the windows cover `[start, n)`. -/
theorem windowsF_spec (S O : Nat) (hO : O < S) (n : Nat) :
    ∀ fuel start, n - start < fuel →
      ∃ ws, windowsF S O n start fuel = some ws ∧
        (n ≤ start → ws = []) ∧
        (start < n → ∃ tl, ws = (start, min (start + S) n) :: tl) ∧
        (∀ p ∈ ws, p.2 = min (p.1 + S) n) ∧
        (∀ p, ws.getLast? = some p → p.2 = n) ∧
        List.Chain' (fun p q => p.1 ≤ q.1 ∧ q.1 ≤ p.2 ∧ p.2 ≤ q.2 ∧ p.2 - q.1 = O) ws ∧
        (∀ x, start ≤ x → x < n → ∃ p ∈ ws, p.1 ≤ x ∧ x < p.2) := by
  intro fuel
  induction fuel with
  | zero => intro start h; omega
  | succ f ih =>
    intro start hfuel
    rw [windowsF]
    by_cases hs : start < n
    · simp only [hs, if_true]
      by_cases he : min (start + S) n = n
      · simp only [he, if_true]
        refine ⟨[(start, n)], rfl, ?_, ?_, ?_, ?_, ?_, ?_⟩
        · intro h; omega
        · intro _; exact ⟨[], rfl⟩
        · intro p hp
          simp only [List.mem_singleton] at hp
          subst hp
          simp only
          omega
        · intro p hp
          simp only [List.getLast?_singleton, Option.some.injEq] at hp
          subst hp
          rfl
        · simp
        · intro x hx1 hx2
          exact ⟨(start, n), by simp, hx1, hx2⟩
      · simp only [he, if_false]
        have hlt : start + S < n := by omega
        have hm1 : min (start + S) n = start + S := by omega
        rw [hm1]
        obtain ⟨ws', hw', hnil', hhead', hall', hlast', hchain', hcov'⟩ :=
          ih (start + S - O) (by omega)
        obtain ⟨tl', htl'⟩ := hhead' (by omega)
        refine ⟨(start, start + S) :: ws', by rw [hw'], ?_, ?_, ?_, ?_, ?_, ?_⟩
        · intro h; omega
        · intro _; exact ⟨ws', rfl⟩
        · intro p hp
          rcases List.mem_cons.mp hp with hp | hp
          · subst hp; simp only; omega
          · exact hall' p hp
        · intro p hp
          rw [htl', List.getLast?_cons_cons] at hp
          exact hlast' p (htl' ▸ hp)
        · rw [htl']
          rw [htl'] at hchain'
          refine List.chain'_cons.mpr ⟨?_, hchain'⟩
          refine ⟨by simp only; omega, by simp only; omega, by simp only; omega,
            by simp only; omega⟩
        · intro x hx1 hx2
          by_cases hxe : x < start + S
          · exact ⟨(start, start + S), by simp, hx1, hxe⟩
          · obtain ⟨p, hp, hpl, hpr⟩ := hcov' x (by omega) hx2
            exact ⟨p, List.mem_cons_of_mem _ hp, hpl, hpr⟩
    · simp only [hs, if_false]
      refine ⟨[], rfl, fun _ => rfl, ?_, ?_, ?_, ?_, ?_⟩
      · intro h; exact h.elim
      · intro p hp; simp at hp
      · intro p hp; simp at hp
      · simp
      · intro x hx1 hx2; omega

/-! ## Chunker claims -/

/-- C1: for every document text of length `n` and every configuration with
`max_chunk_size S` and `overlap O` with `0 ≤ O < S`, the pre-trim windows
produced by the chunker cover `[0, n)` with no gaps, and each adjacent pair
of windows overlaps by exactly `O` characters (in particular every pair but
possibly the last, as the claim states). -/
theorem chunk_window_coverage_overlap (S O : Nat) (hO : O < S) (text : List Char) :
    ∃ ws, windows S O text = some ws ∧
      (∀ x, x < text.length → ∃ p ∈ ws, p.1 ≤ x ∧ x < p.2) ∧
      List.Chain' (fun p q => p.1 ≤ q.1 ∧ q.1 ≤ p.2 ∧ p.2 ≤ q.2 ∧ p.2 - q.1 = O) ws := by
  obtain ⟨ws, hw, _, _, _, _, hchain, hcov⟩ :=
    windowsF_spec S O hO text.length (text.length + 1) 0 (by omega)
  exact ⟨ws, hw, fun x hx => hcov x (Nat.zero_le x) hx, hchain⟩

/-- C1 witness: the coverage/overlap theorem instantiated at `S = 10`,
`O = 3` on a concrete 15-character document. -/
theorem chunk_window_coverage_overlap_witness :
    ∃ ws, windows 10 3 "AAAAABBBBBCCCCC".toList = some ws ∧
      (∀ x, x < "AAAAABBBBBCCCCC".toList.length → ∃ p ∈ ws, p.1 ≤ x ∧ x < p.2) ∧
      List.Chain' (fun p q => p.1 ≤ q.1 ∧ q.1 ≤ p.2 ∧ p.2 ≤ q.2 ∧ p.2 - q.1 = 3) ws :=
  chunk_window_coverage_overlap 10 3 (by decide) "AAAAABBBBBCCCCC".toList

/-- C2 counterexample: chunking `"AAAAABBBBBCCCCC"` with `S = 10`, `O = 3`
does not return `["AAAAABBBBB", "BBCCCCC"]` as the spec claims. -/
theorem chunk_example_spec_value_wrong :
    chunk_text 10 3 "AAAAABBBBBCCCCC".toList ≠
      some ["AAAAABBBBB".toList, "BBCCCCC".toList] := by
  decide

/-- C2 amended: chunking `"AAAAABBBBBCCCCC"` with `S = 10`, `O = 3` returns
`["AAAAABBBBB", "BBBCCCCC"]` (the second window starts at `10 - 3 = 7`,
so it keeps three `B`s, not two). -/
theorem chunk_example_actual_value :
    chunk_text 10 3 "AAAAABBBBBCCCCC".toList =
      some ["AAAAABBBBB".toList, "BBBCCCCC".toList] := by
  decide

/-- C8: for every input text (with the validated configuration `O < S`),
every chunk the chunker emits is non-empty after trimming and has length at
most `S`, and chunking the empty string returns an empty sequence rather
than an error. -/
theorem chunk_invariants (S O : Nat) (hO : O < S) (text : List Char) :
    (∃ cs, chunk_text S O text = some cs ∧ ∀ c ∈ cs, c ≠ [] ∧ c.length ≤ S) ∧
      chunk_text S O ([] : List Char) = some [] := by
  constructor
  · obtain ⟨ws, hw, _, _, hall, _, _, _⟩ :=
      windowsF_spec S O hO text.length (text.length + 1) 0 (by omega)
    refine ⟨(ws.map fun p => pyStrip (pySlice text p.1 p.2)).filter (fun c => !c.isEmpty),
      ?_, ?_⟩
    · rw [chunk_text_eq_windows, show windows S O text = some ws from hw]
      rfl
    · intro c hc
      rw [List.mem_filter] at hc
      obtain ⟨hc1, hc2⟩ := hc
      refine ⟨by simpa [List.isEmpty_iff] using hc2, ?_⟩
      rw [List.mem_map] at hc1
      obtain ⟨p, hp, hpc⟩ := hc1
      have h1 := hall p hp
      have h2 : (pySlice text p.1 p.2).length ≤ p.2 - p.1 := by
        simp only [pySlice, List.length_take, List.length_drop]
        omega
      calc c.length = (pyStrip (pySlice text p.1 p.2)).length := by rw [hpc]
        _ ≤ (pySlice text p.1 p.2).length := pyStrip_length_le _
        _ ≤ p.2 - p.1 := h2
        _ ≤ S := by omega
  · rfl

/-- C8 witness: the invariant theorem at `S = 10`, `O = 3` on a concrete
text with surrounding whitespace. -/
theorem chunk_invariants_witness :
    (∃ cs, chunk_text 10 3 "  hello world, hello again  ".toList = some cs ∧
      ∀ c ∈ cs, c ≠ [] ∧ c.length ≤ 10) ∧
      chunk_text 10 3 ([] : List Char) = some [] :=
  chunk_invariants 10 3 (by decide) "  hello world, hello again  ".toList

/-- C9: under the validated-configuration precondition `O < S`, the chunking
loop terminates on every input text (fuel `n + 1` always suffices), and the
iteration ends exactly when a window's end reaches the text length: the last
window produced ends at `text.length`. -/
theorem chunk_text_terminates (S O : Nat) (hO : O < S) (text : List Char) :
    ∃ cs ws, chunk_text S O text = some cs ∧ windows S O text = some ws ∧
      ∀ p, ws.getLast? = some p → p.2 = text.length := by
  obtain ⟨ws, hw, _, _, _, hlast, _, _⟩ :=
    windowsF_spec S O hO text.length (text.length + 1) 0 (by omega)
  refine ⟨(ws.map fun p => pyStrip (pySlice text p.1 p.2)).filter (fun c => !c.isEmpty),
    ws, ?_, hw, hlast⟩
  rw [chunk_text_eq_windows, show windows S O text = some ws from hw]
  rfl

/-- C9 witness: termination at the repository's configured `S = 800`,
`O = 150` on a concrete text. -/
theorem chunk_text_terminates_witness :
    ∃ cs ws, chunk_text CHUNK_SIZE CHUNK_OVERLAP "sample document".toList = some cs ∧
      windows CHUNK_SIZE CHUNK_OVERLAP "sample document".toList = some ws ∧
      ∀ p, ws.getLast? = some p → p.2 = "sample document".toList.length :=
  chunk_text_terminates CHUNK_SIZE CHUNK_OVERLAP (by decide) "sample document".toList

/-! ## Indexer (`build_index.py`: `file_hash`, `load_docs`, `main`)

The SHA-256 hex digest itself is external library code
(`hashlib.sha256(...).hexdigest()`); it is modelled as an abstract function
`sha : List Nat → List Char` together with the property that a hex digest
of SHA-256 has 64 characters.  Everything downstream of it is embedded
one-to-one. -/

/-- Configured source directory (`KB_DIR = "kb_docs"`). -/
def KB_DIR : List Char := "kb_docs".toList

/-- `file_hash`: first 16 characters of the SHA-256 hex digest of the raw
file bytes. -/
def file_hash (sha : List Nat → List Char) (bytes : List Nat) : List Char :=
  (sha bytes).take 16

/-- A directory entry as enumerated by `glob.glob(os.path.join(kb_dir, "*"))`:
its basename, whether it is a regular file (`os.path.isfile`), and its raw
bytes. -/
structure FileEntry where
  name : List Char
  isFile : Bool
  bytes : List Nat
deriving DecidableEq

/-- A loaded document (`load_docs` result entries). -/
structure Doc where
  path : List Char
  filename : List Char
  text : List Char
  hash : List Char
deriving DecidableEq

/-- `os.path.join(kb_dir, name)`. -/
def joinPath (dir name : List Char) : List Char := dir ++ '/' :: name

/-- `path.lower().endswith((".md", ".txt"))`. -/
def extOk (path : List Char) : Bool :=
  (".md".toList).isSuffixOf (path.map pyLower) ||
    (".txt".toList).isSuffixOf (path.map pyLower)

/-- The body of the `load_docs` loop for one directory entry: skip
non-files, skip unrecognized extensions, decode the bytes (UTF-8,
`errors="ignore"`), skip zero-length texts, otherwise record path,
basename, text and content hash. -/
def loadOne (sha : List Nat → List Char) (kbDir : List Char)
    (f : FileEntry) : Option Doc :=
  if !f.isFile then none
  else if !extOk (joinPath kbDir f.name) then none
  else
    let text := utf8DecodeIgnore f.bytes
    if text.length = 0 then none
    else some { path := joinPath kbDir f.name, filename := f.name,
                text := text, hash := file_hash sha f.bytes }

/-- `load_docs`: run the loop body over the directory entries in order,
collecting the loaded documents. -/
def load_docs (sha : List Nat → List Char) (kbDir : List Char)
    (entries : List FileEntry) : List Doc :=
  entries.filterMap (loadOne sha kbDir)

/-- The chunk list of a document under the configured chunking parameters.
(`chunk_text` with `CHUNK_OVERLAP < CHUNK_SIZE` never exhausts its fuel, by
`chunk_text_terminates`; the default is unreachable.) -/
def chunks_of (d : Doc) : List (List Char) :=
  (chunk_text CHUNK_SIZE CHUNK_OVERLAP d.text).getD []

/-- The `"::"` separator of chunk ids. -/
def sep2 : List Char := [':', ':']

/-- The chunk id `f"{doc['filename']}::{doc['hash']}::{i}"`. -/
def cid (d : Doc) (i : Nat) : List Char :=
  d.filename ++ sep2 ++ d.hash ++ sep2 ++ pyStr i

/-- Per-document chunk metadata as built in `main`. -/
structure BuildMeta where
  source_file : List Char
  source_path : List Char
  chunk_index : Nat
deriving DecidableEq

/-- The `(id, text, metadata)` records `main` accumulates for one document. -/
def recordsOf (d : Doc) : List (List Char × List Char × BuildMeta) :=
  (chunks_of d).enum.map fun p =>
    (cid d p.1, p.2,
      { source_file := d.filename, source_path := d.path, chunk_index := p.1 })

/-- The ids `main` accumulates for one document, in traversal order. -/
def ids_of (d : Doc) : List (List Char) :=
  (chunks_of d).enum.map fun p => cid d p.1

/-- All ids of one index build, across all documents in load order. -/
def all_ids (docs : List Doc) : List (List Char) := docs.flatMap ids_of

/-- All `(id, text, metadata)` records of one index build. -/
def all_records (docs : List Doc) : List (List Char × List Char × BuildMeta) :=
  docs.flatMap recordsOf

/-- The two fatal index-build failures (`raise SystemExit(...)` in `main`):
a missing source directory, and an empty eligible-document set. -/
inductive BuildErr where
  | configurationErr
  | noDocumentsErr
deriving DecidableEq

/-- The persistent store, reduced to the one collection the program uses:
`none` models an absent collection, `some records` its contents. -/
def Store := Option (List (List Char × List Char × BuildMeta))

/-- The filesystem as `main` observes it: whether `KB_DIR` exists, and its
directory entries. -/
structure FS where
  kbDirPresent : Bool
  entries : List FileEntry

/-- `main`: check the source directory, load documents, and only on success
drop/recreate the collection and add all records (the drop of a possibly
absent collection is wrapped in `try/except`, hence the unconditional
`some (all_records docs)` result state). -/
def main_run (sha : List Nat → List Char) (fs : FS) (store : Store) :
    Option BuildErr × Store :=
  if !fs.kbDirPresent then (some BuildErr.configurationErr, store)
  else
    let docs := load_docs sha KB_DIR fs.entries
    if docs.isEmpty then (some BuildErr.noDocumentsErr, store)
    else (none, some (all_records docs))

/-- C4: a missing source directory fails the build with the
configuration error, and an empty eligible-document set fails it with the
no-documents error; in both cases the store is returned in its prior
state, untouched. -/
theorem build_aborts_before_mutation (sha : List Nat → List Char) (fs : FS)
    (store : Store) :
    (fs.kbDirPresent = false →
      main_run sha fs store = (some BuildErr.configurationErr, store)) ∧
    (fs.kbDirPresent = true → load_docs sha KB_DIR fs.entries = [] →
      main_run sha fs store = (some BuildErr.noDocumentsErr, store)) := by
  constructor
  · intro h
    simp [main_run, h]
  · intro h hdocs
    simp [main_run, h, hdocs]

/-- C4 witness: both abort cases at concrete filesystems, against a
non-empty prior store that is preserved. -/
theorem build_aborts_before_mutation_witness :
    (main_run (fun _ => []) ⟨false, []⟩
        (some [(['x'], ['y'], ⟨['f'], ['p'], 0⟩)]) =
      (some BuildErr.configurationErr, some [(['x'], ['y'], ⟨['f'], ['p'], 0⟩)])) ∧
    (main_run (fun _ => []) ⟨true, [⟨"empty.txt".toList, true, []⟩]⟩
        (some [(['x'], ['y'], ⟨['f'], ['p'], 0⟩)]) =
      (some BuildErr.noDocumentsErr, some [(['x'], ['y'], ⟨['f'], ['p'], 0⟩)])) :=
  ⟨(build_aborts_before_mutation (fun _ => []) ⟨false, []⟩ _).1 rfl,
   (build_aborts_before_mutation (fun _ => []) ⟨true, [⟨"empty.txt".toList, true, []⟩]⟩ _).2
     rfl (by decide)⟩

/-! ## Id uniqueness (C3) -/

/-- If two `prefix-colon-digits` decompositions of the same character list
have all-digit tails, the decompositions agree (the colon pins the split
point, because a colon is not a digit). -/
theorem colon_digit_suffix {u1 u2 s1 s2 : List Char}
    (h : u1 ++ ':' :: s1 = u2 ++ ':' :: s2)
    (d1 : ∀ c ∈ s1, c.isDigit = true) (d2 : ∀ c ∈ s2, c.isDigit = true) :
    u1 = u2 ∧ s1 = s2 := by
  have hlen : u1.length + (s1.length + 1) = u2.length + (s2.length + 1) := by
    have := congrArg List.length h
    simpa using this
  rcases Nat.lt_trichotomy s1.length s2.length with hlt | heq | hgt
  · exfalso
    have hdrop := congrArg (List.drop u1.length) h
    rw [List.drop_left] at hdrop
    rw [List.drop_append_eq_append_drop,
      List.drop_eq_nil_of_le (by omega : u2.length ≤ u1.length)] at hdrop
    have hm : u1.length - u2.length = (u1.length - u2.length - 1) + 1 := by omega
    rw [List.nil_append, hm, List.drop_succ_cons] at hdrop
    have hmem : ':' ∈ s2 :=
      List.mem_of_mem_drop (by rw [← hdrop]; exact List.mem_cons_self _ _)
    have := d2 ':' hmem
    simp at this
  · obtain ⟨hu, hs⟩ := List.append_inj' h (by simp [heq])
    exact ⟨hu, by simpa using hs⟩
  · exfalso
    have hdrop := congrArg (List.drop u2.length) h.symm
    rw [List.drop_left] at hdrop
    rw [List.drop_append_eq_append_drop,
      List.drop_eq_nil_of_le (by omega : u1.length ≤ u2.length)] at hdrop
    have hm : u2.length - u1.length = (u2.length - u1.length - 1) + 1 := by omega
    rw [List.nil_append, hm, List.drop_succ_cons] at hdrop
    have hmem : ':' ∈ s1 :=
      List.mem_of_mem_drop (by rw [← hdrop]; exact List.mem_cons_self _ _)
    have := d1 ':' hmem
    simp at this

/-- Chunk-id injectivity: two chunk ids built from hashes of equal length
coincide only if filename, hash and chunk index all coincide. -/
theorem cid_components_eq {f1 h1 f2 h2 : List Char} {i1 i2 : Nat}
    (hh : h1.length = h2.length)
    (h : f1 ++ sep2 ++ h1 ++ sep2 ++ pyStr i1 = f2 ++ sep2 ++ h2 ++ sep2 ++ pyStr i2) :
    f1 = f2 ∧ h1 = h2 ∧ i1 = i2 := by
  have key : ∀ a s : List Char, a ++ sep2 ++ s = (a ++ [':']) ++ ':' :: s := by
    intro a s
    simp [sep2]
  rw [key (f1 ++ sep2 ++ h1) (pyStr i1), key (f2 ++ sep2 ++ h2) (pyStr i2)] at h
  obtain ⟨hu, hs⟩ := colon_digit_suffix h (pyStr_digits i1) (pyStr_digits i2)
  have hi : i1 = i2 := pyStr_inj hs
  obtain ⟨hu2, -⟩ := List.append_inj' hu (by simp)
  obtain ⟨hu3, hhash⟩ := List.append_inj' hu2 hh
  obtain ⟨hf, -⟩ := List.append_inj' hu3 (by simp [sep2])
  exact ⟨hf, hhash, hi⟩

theorem loadOne_filename_hash {sha : List Nat → List Char} {kbDir : List Char}
    {f : FileEntry} {d : Doc} (h : loadOne sha kbDir f = some d) :
    d.filename = f.name ∧ d.hash = file_hash sha f.bytes := by
  simp only [loadOne] at h
  split_ifs at h
  cases h
  exact ⟨rfl, rfl⟩

/-- The filenames of the loaded documents are a sublist of the directory
entry names (documents keep the basenames of the files they come from). -/
theorem load_docs_filenames_sublist (sha : List Nat → List Char)
    (kbDir : List Char) (entries : List FileEntry) :
    ((load_docs sha kbDir entries).map Doc.filename).Sublist
      (entries.map FileEntry.name) := by
  unfold load_docs
  induction entries with
  | nil => simp
  | cons e rest ih =>
    rw [List.filterMap_cons, List.map_cons]
    cases hle : loadOne sha kbDir e with
    | none => exact ih.cons _
    | some d =>
      rw [List.map_cons, (loadOne_filename_hash hle).1]
      exact ih.cons₂ _

theorem load_docs_hash_mem {sha : List Nat → List Char} {kbDir : List Char}
    {entries : List FileEntry} {d : Doc} (h : d ∈ load_docs sha kbDir entries) :
    ∃ e ∈ entries, d.hash = file_hash sha e.bytes := by
  unfold load_docs at h
  rw [List.mem_filterMap] at h
  obtain ⟨e, he, hle⟩ := h
  exact ⟨e, he, (loadOne_filename_hash hle).2⟩

theorem file_hash_length {sha : List Nat → List Char}
    (hsha : ∀ b, (sha b).length = 64) (b : List Nat) :
    (file_hash sha b).length = 16 := by
  simp [file_hash, hsha]

theorem ids_of_eq_range (d : Doc) :
    ids_of d = (List.range (chunks_of d).length).map (cid d) := by
  unfold ids_of
  rw [show (fun p : Nat × List Char => cid d p.1) = (cid d ∘ Prod.fst) from rfl,
    ← List.map_map, List.enum_map_fst]

theorem ids_of_pairwise_ne (d : Doc) : (ids_of d).Pairwise (· ≠ ·) := by
  rw [ids_of_eq_range, List.pairwise_map]
  refine (List.pairwise_lt_range _).imp ?_
  intro i j hij heq
  unfold cid at heq
  obtain ⟨-, -, hij'⟩ := cid_components_eq rfl heq
  omega

theorem all_ids_pairwise_ne (docs : List Doc)
    (hlen : ∀ d ∈ docs, d.hash.length = 16)
    (hnames : docs.Pairwise (fun a b => a.filename ≠ b.filename)) :
    (all_ids docs).Pairwise (· ≠ ·) := by
  unfold all_ids
  have hfm : docs.flatMap ids_of = (docs.map ids_of).flatten := by
    simp [List.flatMap_def]
  rw [hfm, List.pairwise_flatten]
  constructor
  · intro l hl
    rw [List.mem_map] at hl
    obtain ⟨d, hd, rfl⟩ := hl
    exact ids_of_pairwise_ne d
  · rw [List.pairwise_map]
    refine List.Pairwise.imp_of_mem ?_ hnames
    intro a b ha hb hne x hx y hy heq
    rw [ids_of_eq_range, List.mem_map] at hx hy
    obtain ⟨i, -, rfl⟩ := hx
    obtain ⟨j, -, rfl⟩ := hy
    unfold cid at heq
    have hh : a.hash.length = b.hash.length := by rw [hlen a ha, hlen b hb]
    obtain ⟨hf, -, -⟩ := cid_components_eq hh heq
    exact hne hf

/-- C3: in one index build over any loaded document set, each chunk id is
`filename ++ "::" ++ hash ++ "::" ++ decimal chunk index` with the hash the
16-character truncation of the document's SHA-256 hex digest, and all ids
are pairwise distinct (the directory cannot contain two entries with the
same name). -/
theorem build_id_format_unique (sha : List Nat → List Char)
    (hsha : ∀ b, (sha b).length = 64) (kbDir : List Char)
    (entries : List FileEntry)
    (hnames : (entries.map FileEntry.name).Pairwise (· ≠ ·)) :
    (∀ s ∈ all_ids (load_docs sha kbDir entries),
      ∃ d ∈ load_docs sha kbDir entries, ∃ i, i < (chunks_of d).length ∧
        s = d.filename ++ sep2 ++ d.hash ++ sep2 ++ pyStr i ∧
        d.hash.length = 16) ∧
    (all_ids (load_docs sha kbDir entries)).Pairwise (· ≠ ·) := by
  have hlen : ∀ d ∈ load_docs sha kbDir entries, d.hash.length = 16 := by
    intro d hd
    obtain ⟨e, -, hhash⟩ := load_docs_hash_mem hd
    rw [hhash]
    exact file_hash_length hsha e.bytes
  constructor
  · intro s hs
    unfold all_ids at hs
    rw [List.mem_flatMap] at hs
    obtain ⟨d, hd, hsid⟩ := hs
    rw [ids_of_eq_range, List.mem_map] at hsid
    obtain ⟨i, hi, rfl⟩ := hsid
    rw [List.mem_range] at hi
    exact ⟨d, hd, i, hi, rfl, hlen d hd⟩
  · refine all_ids_pairwise_ne _ hlen ?_
    have hsub := load_docs_filenames_sublist sha kbDir entries
    have hp := List.Pairwise.sublist hsub hnames
    rwa [List.pairwise_map] at hp

/-- C3 witness: the id format/uniqueness theorem on a concrete directory
with two files, with a concrete 64-character digest function. -/
theorem build_id_format_unique_witness :
    (∀ s ∈ all_ids (load_docs (fun _ => List.replicate 64 'a') KB_DIR
        [⟨"a.txt".toList, true, [104, 105]⟩, ⟨"b.md".toList, true, [33]⟩]),
      ∃ d ∈ load_docs (fun _ => List.replicate 64 'a') KB_DIR
          [⟨"a.txt".toList, true, [104, 105]⟩, ⟨"b.md".toList, true, [33]⟩],
        ∃ i, i < (chunks_of d).length ∧
          s = d.filename ++ sep2 ++ d.hash ++ sep2 ++ pyStr i ∧
          d.hash.length = 16) ∧
    (all_ids (load_docs (fun _ => List.replicate 64 'a') KB_DIR
        [⟨"a.txt".toList, true, [104, 105]⟩,
         ⟨"b.md".toList, true, [33]⟩])).Pairwise (· ≠ ·) :=
  build_id_format_unique (fun _ => List.replicate 64 'a') (fun _ => by simp)
    KB_DIR [⟨"a.txt".toList, true, [104, 105]⟩, ⟨"b.md".toList, true, [33]⟩]
    (by decide)

/-! ## Encoding recovery (C5) -/

/-- C5 counterexample: decoding `b"A\xffB"` under the source's
`errors="ignore"` yields `"AB"` — the invalid byte is dropped, and in
particular it is not replaced by any character (no three-character result
`['A', c, 'B']` exists). -/
theorem load_decode_not_replace :
    utf8DecodeIgnore [65, 255, 66] = ['A', 'B'] ∧
      ¬ ∃ c : Char, utf8DecodeIgnore [65, 255, 66] = ['A', c, 'B'] := by
  refine ⟨by decide, ?_⟩
  rintro ⟨c, hc⟩
  rw [show utf8DecodeIgnore [65, 255, 66] = ['A', 'B'] by decide] at hc
  have := congrArg List.length hc
  simp at this

/-- C5 amended: document loading never fails on invalid bytes — an invalid
byte sequence is dropped (ignored), not replaced, and the rest of the
file's content is preserved and indexed: an eligible file whose bytes are
ASCII around one invalid `0xFF` byte loads to a document whose text is the
surrounding content with the invalid byte removed. -/
theorem load_recovers_invalid_bytes (sha : List Nat → List Char)
    (kbDir name : List Char) (as bs : List Nat)
    (ha : ∀ b ∈ as, b < 128) (hb : ∀ b ∈ bs, b < 128)
    (hext : extOk (joinPath kbDir name) = true)
    (hne : as ≠ [] ∨ bs ≠ []) :
    loadOne sha kbDir ⟨name, true, as ++ 255 :: bs⟩ =
      some { path := joinPath kbDir name, filename := name,
             text := as.map Char.ofNat ++ bs.map Char.ofNat,
             hash := file_hash sha (as ++ 255 :: bs) } := by
  have hdec := utf8DecodeIgnore_ascii_bad_ascii as bs ha hb
  have hlen : ¬((List.map Char.ofNat as ++ List.map Char.ofNat bs).length = 0) := by
    simp only [List.length_append, List.length_map]
    intro h0
    rcases hne with h | h
    · exact h (List.length_eq_zero.mp (by omega))
    · exact h (List.length_eq_zero.mp (by omega))
  simp [loadOne, hext, hdec, hlen]
  intro h
  rcases hne with h' | h'
  · exact absurd h h'
  · exact h'

/-- C5 witness: the recovery theorem at the concrete file `a.txt` with
bytes `b"hi\xff!"`. -/
theorem load_recovers_invalid_bytes_witness :
    loadOne (fun _ => List.replicate 64 'a') KB_DIR
        ⟨"a.txt".toList, true, [104, 105] ++ 255 :: [33]⟩ =
      some { path := joinPath KB_DIR "a.txt".toList, filename := "a.txt".toList,
             text := [104, 105].map Char.ofNat ++ [33].map Char.ofNat,
             hash := file_hash (fun _ => List.replicate 64 'a')
               ([104, 105] ++ 255 :: [33]) } :=
  load_recovers_invalid_bytes (fun _ => List.replicate 64 'a') KB_DIR
    "a.txt".toList [104, 105] [33] (by decide) (by decide) (by decide)
    (Or.inl (by decide))

/-! ## Retriever (`geminitestv1.py` / `geminitestv2.py`, `retrieve_context`)

The store's ranked query response (`documents`, `metadatas`, `ids`, already
projected to the first query as in `results.get(..., [[]])[0]`) is the
input; the embedding of the query and the nearest-neighbor search are the
external store's work.  Chroma metadata dictionaries are modelled with
optional fields (`meta.get(key, default)` becomes `Option.getD`). -/

/-- A stored metadata dictionary as seen at retrieval time; a missing key
is `none`, and `{}` (all `none`) models a missing dictionary. -/
structure MetaR where
  source_file : Option (List Char) := none
  chunk_index : Option Nat := none
deriving DecidableEq

/-- A retrieval citation `{id, source_file, chunk_index}`. -/
structure Citation where
  id : List Char
  source_file : List Char
  chunk_index : Nat
deriving DecidableEq

/-- The ranked store response for one query. -/
structure QueryResults where
  documents : List (List Char)
  metadatas : List MetaR
  ids : List (List Char)

/-- The `for i, doc in enumerate(docs)` loop of `retrieve_context` in
`geminitestv1.py`, building the context blocks and citations in rank
order. -/
def rcLoopV1 (metas : List MetaR) (ids : List (List Char)) :
    Nat → List (List Char) → List (List Char) × List Citation
  | _, [] => ([], [])
  | i, doc :: rest =>
    let meta := metas.getD i {}
    let cidv := ids.getD i ("chunk_".toList ++ pyStr i)
    let src := meta.source_file.getD ("unknown".toList)
    let cix := meta.chunk_index.getD i
    let tail := rcLoopV1 metas ids (i + 1) rest
    (("[".toList ++ pyStr (i + 1) ++ "] (source: ".toList ++ src ++
        ", chunk: ".toList ++ pyStr cix ++ ")\n".toList ++ doc) :: tail.1,
      ({ id := cidv, source_file := src, chunk_index := cix } : Citation) :: tail.2)

/-- `retrieve_context` of `geminitestv1.py`: run the loop, join the blocks
with the visible delimiter, and strip the concatenation. -/
def retrieve_context_v1 (res : QueryResults) : List Char × List Citation :=
  let pair := rcLoopV1 res.metadatas res.ids 0 res.documents
  (pyStrip (List.intercalate ("\n\n---\n\n".toList) pair.1), pair.2)

/-- The `for i, doc in enumerate(docs)` loop of `retrieve_context` in
`geminitestv2.py`. -/
def rcLoopV2 (metas : List MetaR) (ids : List (List Char)) :
    Nat → List (List Char) → List (List Char) × List Citation
  | _, [] => ([], [])
  | i, doc :: rest =>
    let meta := metas.getD i {}
    let cidv := ids.getD i ("chunk_".toList ++ pyStr i)
    let src := meta.source_file.getD ("unknown".toList)
    let cix := meta.chunk_index.getD i
    let tail := rcLoopV2 metas ids (i + 1) rest
    (("[".toList ++ pyStr (i + 1) ++ "] (source: ".toList ++ src ++
        ", chunk: ".toList ++ pyStr cix ++ ")\n".toList ++ doc) :: tail.1,
      ({ id := cidv, source_file := src, chunk_index := cix } : Citation) :: tail.2)

/-- `retrieve_context` of `geminitestv2.py`. -/
def retrieve_context_v2 (res : QueryResults) : List Char × List Citation :=
  let pair := rcLoopV2 res.metadatas res.ids 0 res.documents
  (pyStrip (List.intercalate ("\n\n---\n\n".toList) pair.1), pair.2)

/-- The citation emitted for the rank-`i` result. -/
def mkCitation (metas : List MetaR) (ids : List (List Char)) (i : Nat) : Citation :=
  { id := ids.getD i ("chunk_".toList ++ pyStr i),
    source_file := (metas.getD i {}).source_file.getD ("unknown".toList),
    chunk_index := (metas.getD i {}).chunk_index.getD i }

/-- The context block emitted for the rank-`i` result: a 1-based rank
marker, the source/chunk annotation, then the chunk text. -/
def mkBlock (metas : List MetaR) (ids : List (List Char)) (i : Nat)
    (doc : List Char) : List Char :=
  "[".toList ++ pyStr (i + 1) ++ "] (source: ".toList ++
    (metas.getD i {}).source_file.getD ("unknown".toList) ++ ", chunk: ".toList ++
    pyStr ((metas.getD i {}).chunk_index.getD i) ++ ")\n".toList ++ doc

theorem rcLoopV1_eq (metas : List MetaR) (ids : List (List Char)) :
    ∀ (docs : List (List Char)) (j : Nat),
      rcLoopV1 metas ids j docs =
        ((List.range docs.length).map
            (fun t => mkBlock metas ids (j + t) (docs.getD t [])),
          (List.range docs.length).map (fun t => mkCitation metas ids (j + t))) := by
  intro docs
  induction docs with
  | nil => intro j; simp [rcLoopV1]
  | cons doc rest ih =>
    intro j
    rw [rcLoopV1, ih (j + 1)]
    simp only [List.length_cons, List.range_succ_eq_map, List.map_cons, List.map_map]
    refine congrArg₂ Prod.mk ?_ ?_
    · refine congrArg₂ List.cons (by simp [mkBlock]) ?_
      refine List.map_congr_left ?_
      intro t ht
      simp only [Function.comp_apply, List.getD_cons_succ]
      rw [show j + 1 + t = j + (t + 1) by omega]
    · refine congrArg₂ List.cons (by simp [mkCitation]) ?_
      refine List.map_congr_left ?_
      intro t ht
      simp only [Function.comp_apply]
      rw [show j + 1 + t = j + (t + 1) by omega]

/-- C6: when the store returns at most `k` ranked results, retrieval
returns at most `k` citations, in exactly the store's rank order, and the
context text is the stripped join of exactly one block per citation in
that same order, each block carrying the 1-based rank marker (see
`mkBlock`); with no results the context is empty and so is the citation
sequence. -/
theorem retrieve_ordering (k : Nat) (res : QueryResults)
    (hk : res.documents.length ≤ k) :
    (retrieve_context_v1 res).2.length ≤ k ∧
    (retrieve_context_v1 res).2 =
      (List.range res.documents.length).map (mkCitation res.metadatas res.ids) ∧
    (retrieve_context_v1 res).1 =
      pyStrip (List.intercalate ("\n\n---\n\n".toList)
        ((List.range res.documents.length).map
          (fun t => mkBlock res.metadatas res.ids t (res.documents.getD t [])))) ∧
    (res.documents = [] → retrieve_context_v1 res = ([], [])) := by
  have h := rcLoopV1_eq res.metadatas res.ids res.documents 0
  simp only [Nat.zero_add] at h
  have h1 : retrieve_context_v1 res =
      (pyStrip (List.intercalate ("\n\n---\n\n".toList)
        ((List.range res.documents.length).map
          (fun t => mkBlock res.metadatas res.ids t (res.documents.getD t [])))),
       (List.range res.documents.length).map
          (fun t => mkCitation res.metadatas res.ids t)) := by
    simp only [retrieve_context_v1]
    rw [h]
  refine ⟨?_, ?_, ?_, ?_⟩
  · rw [h1]
    simpa using hk
  · rw [h1]
  · rw [h1]
  · intro hd
    rw [h1, hd]
    simp [pyStrip, List.intercalate]

/-- C6 witness: the ordering theorem at `k = 4` on a concrete two-result
store response. -/
theorem retrieve_ordering_witness :
    ((retrieve_context_v1 ⟨["doc one".toList, "doc two".toList],
        [⟨some "a.txt".toList, some 0⟩, ⟨none, none⟩],
        ["i0".toList, "i1".toList]⟩).2.length ≤ 4) ∧
    ((retrieve_context_v1 ⟨["doc one".toList, "doc two".toList],
        [⟨some "a.txt".toList, some 0⟩, ⟨none, none⟩],
        ["i0".toList, "i1".toList]⟩).2 =
      (List.range (["doc one".toList, "doc two".toList] : List (List Char)).length).map
        (mkCitation [⟨some "a.txt".toList, some 0⟩, ⟨none, none⟩]
          ["i0".toList, "i1".toList])) ∧
    ((retrieve_context_v1 ⟨["doc one".toList, "doc two".toList],
        [⟨some "a.txt".toList, some 0⟩, ⟨none, none⟩],
        ["i0".toList, "i1".toList]⟩).1 =
      pyStrip (List.intercalate ("\n\n---\n\n".toList)
        ((List.range (["doc one".toList, "doc two".toList] : List (List Char)).length).map
          (fun t => mkBlock [⟨some "a.txt".toList, some 0⟩, ⟨none, none⟩]
            ["i0".toList, "i1".toList] t
            ((["doc one".toList, "doc two".toList] : List (List Char)).getD t []))))) ∧
    ((["doc one".toList, "doc two".toList] : List (List Char)) = [] →
      retrieve_context_v1 ⟨["doc one".toList, "doc two".toList],
        [⟨some "a.txt".toList, some 0⟩, ⟨none, none⟩],
        ["i0".toList, "i1".toList]⟩ = ([], [])) :=
  retrieve_ordering 4 ⟨["doc one".toList, "doc two".toList],
    [⟨some "a.txt".toList, some 0⟩, ⟨none, none⟩],
    ["i0".toList, "i1".toList]⟩ (by decide)

/-- C7: a ranked result whose stored metadata is missing still yields a
citation; its `source_file` defaults to `"unknown"` and its `chunk_index`
defaults to the result's (0-based) rank position. -/
theorem citation_fallback (res : QueryResults) (i : Nat)
    (hi : i < res.documents.length)
    (hmeta : res.metadatas.getD i {} = {}) :
    (retrieve_context_v1 res).2.getD i ⟨[], [], 0⟩ =
      { id := res.ids.getD i ("chunk_".toList ++ pyStr i),
        source_file := "unknown".toList, chunk_index := i } := by
  have h := rcLoopV1_eq res.metadatas res.ids res.documents 0
  simp only [Nat.zero_add] at h
  have h2 : (retrieve_context_v1 res).2 =
      (List.range res.documents.length).map
        (fun t => mkCitation res.metadatas res.ids t) := by
    simp only [retrieve_context_v1]
    rw [h]
  rw [h2, List.getD_eq_getElem _ _ (by simpa using hi)]
  rw [List.getElem_map, List.getElem_range]
  rw [List.getD_eq_getElem?_getD] at hmeta
  simp [mkCitation, hmeta]

/-- C7 witness: the fallback theorem at rank position 1 of a concrete
response whose metadata (and id) lists are too short. -/
theorem citation_fallback_witness :
    (retrieve_context_v1 ⟨["d0".toList, "d1".toList],
        [⟨some "a.txt".toList, some 0⟩], ["i0".toList]⟩).2.getD 1 ⟨[], [], 0⟩ =
      { id := (["i0".toList] : List (List Char)).getD 1 ("chunk_".toList ++ pyStr 1),
        source_file := "unknown".toList, chunk_index := 1 } :=
  citation_fallback ⟨["d0".toList, "d1".toList],
    [⟨some "a.txt".toList, some 0⟩], ["i0".toList]⟩ 1 (by decide) (by decide)

theorem rcLoops_agree (metas : List MetaR) (ids : List (List Char)) :
    ∀ (docs : List (List Char)) (j : Nat),
      rcLoopV1 metas ids j docs = rcLoopV2 metas ids j docs := by
  intro docs
  induction docs with
  | nil => intro j; rfl
  | cons doc rest ih =>
    intro j
    rw [rcLoopV1, rcLoopV2, ih]

/-- C10: the two chat front-ends' retrieval functions are equivalent: on
every store response, `retrieve_context` of `geminitestv1.py` and
`retrieve_context` of `geminitestv2.py` return the same
`(context_text, citations)` pair. -/
theorem retrieve_versions_equal (res : QueryResults) :
    retrieve_context_v1 res = retrieve_context_v2 res := by
  simp only [retrieve_context_v1, retrieve_context_v2]
  rw [rcLoops_agree]
